import Mathlib

set_option maxRecDepth 8192

/-!
Verification of the cpu_fingerprint program (src/main.rs).

Shallow embedding conventions:
* An `f64` value is identified with its IEEE-754 bit pattern, a 64-bit word
  (`F64 := Fin (2 ^ 64)`); `f64::to_bits` is then the `Fin.val` projection.
* The floating-point operations used by the program (arithmetic and libm
  transcendentals) are platform/libm-dependent, which is exactly what the
  program probes.  They are therefore abstracted into a `FloatOps` structure;
  every theorem quantifies over (or instantiates) such a structure.
* Every f64 literal of the source is embedded as its concrete IEEE-754
  bit pattern (Rust literals parse to the nearest double, deterministically).
* The 64-bit hasher (`DefaultHasher`: new / fold writes / finish) is
  abstracted as a function from the written word sequence to the finished
  64-bit value, since the claims only depend on which words are written.
* The `panic!` arm of the test dispatch is embedded as `Option.none`.
-/

namespace CpuFingerprint

/-- An f64 value, identified with its 64-bit IEEE-754 bit pattern. -/
abbrev F64 : Type := Fin (2 ^ 64)

/-- `f64::to_bits`: in this embedding a double already is its bit pattern. -/
def toBits (x : F64) : Nat := x.val

/-- The floating-point unit / libm operations the program uses.  Their
results are platform-dependent, so they are abstract here; `ofNat` embeds
the `i as f64` conversion of a loop index. -/
structure FloatOps where
  add : F64 → F64 → F64
  sub : F64 → F64 → F64
  mul : F64 → F64 → F64
  div : F64 → F64 → F64
  sin : F64 → F64
  cos : F64 → F64
  exp : F64 → F64
  sinh : F64 → F64
  cosh : F64 → F64
  log10 : F64 → F64
  log2 : F64 → F64
  atan : F64 → F64
  tanh : F64 → F64
  hypot : F64 → F64 → F64
  abs : F64 → F64
  ofNat : Nat → F64

/-- Source constant `CONSISTENCY_RUNS` (main.rs line 10). -/
def CONSISTENCY_RUNS : Nat := 3

/-- Source constant `SAMPLE_SIZE` (main.rs line 11). -/
def SAMPLE_SIZE : Nat := 1230

/-- Bits of the literal `1e-308`. -/
def lit_1em308 : F64 := ⟨0x000730d67819e8d2, by norm_num⟩

/-- Bits of the literal `2e-308`. -/
def lit_2em308 : F64 := ⟨0x000e61acf033d1a4, by norm_num⟩

/-- Bits of the literal `5e-308`. -/
def lit_5em308 : F64 := ⟨0x0021fa182c40c60d, by norm_num⟩

/-- Bits of the literal `1e-307`. -/
def lit_1em307 : F64 := ⟨0x0031fa182c40c60d, by norm_num⟩

/-- Bits of the literal `1e-320`. -/
def lit_1em320 : F64 := ⟨0x00000000000007e8, by norm_num⟩

/-- Bits of the literal `2.2250738585072014e-308` (smallest normal double). -/
def lit_minNormal : F64 := ⟨0x0010000000000000, by norm_num⟩

/-- Bits of the literal `1.112345`. -/
def lit_1_112345 : F64 := ⟨0x3ff1cc2a454de7ea, by norm_num⟩

/-- Bits of the literal `1.1123156`. -/
def lit_1_1123156 : F64 := ⟨0x3ff1cc0b714d4a36, by norm_num⟩

/-- Bits of the literal `0.9123545676`. -/
def lit_0_9123545676 : F64 := ⟨0x3fed320234c657d4, by norm_num⟩

/-- Bits of the literal `0.951235467`. -/
def lit_0_951235467 : F64 := ⟨0x3fee70855cb1eddf, by norm_num⟩

/-- Bits of the literal `1.05123245`. -/
def lit_1_05123245 : F64 := ⟨0x3ff0d1d91e13e73e, by norm_num⟩

/-- Bits of the literal `1.0`. -/
def lit_one : F64 := ⟨0x3ff0000000000000, by norm_num⟩

/-- Bits of the literal `0.01`. -/
def lit_0_01 : F64 := ⟨0x3f847ae147ae147b, by norm_num⟩

/-- Bits of the literal `1e300`. -/
def lit_1e300 : F64 := ⟨0x7e37e43c8800759c, by norm_num⟩

/-- Bits of the literal `1e200`. -/
def lit_1e200 : F64 := ⟨0x6974e718d7d7625a, by norm_num⟩

/-- Bits of the literal `0.0`. -/
def lit_zero : F64 := ⟨0x0000000000000000, by norm_num⟩

/-- Bits of `-0.0` (IEEE-754 negative zero, sign bit set). -/
def lit_negZero : F64 := ⟨0x8000000000000000, by norm_num⟩

/-- Bits of the literal `1e-15`. -/
def lit_1em15 : F64 := ⟨0x3cd203af9ee75616, by norm_num⟩

/-- Bits of `std::f64::consts::PI`. -/
def lit_pi : F64 := ⟨0x400921fb54442d18, by norm_num⟩

/-- Bits of the literal `6.0`. -/
def lit_six : F64 := ⟨0x4018000000000000, by norm_num⟩

/-- Bits of the literal `4.0`. -/
def lit_four : F64 := ⟨0x4010000000000000, by norm_num⟩

/-- Bits of the literal `3.0`. -/
def lit_three : F64 := ⟨0x4008000000000000, by norm_num⟩

/-- Bits of the literal `2.0`. -/
def lit_two : F64 := ⟨0x4000000000000000, by norm_num⟩

/-- Bits of the literal `-1.0`. -/
def lit_negOne : F64 := ⟨0xbff0000000000000, by norm_num⟩

/-- Bits of the literal `0.5`. -/
def lit_half : F64 := ⟨0x3fe0000000000000, by norm_num⟩

/-- Bits of the literal `-0.534634634512312587`. -/
def lit_negFrac : F64 := ⟨0xbfe11bba17d141e9, by norm_num⟩

/-- Bits of the literal `1e-10`. -/
def lit_1em10 : F64 := ⟨0x3ddb7cdfd9d7bdbb, by norm_num⟩

/-- Bits of the literal `-1e-10`. -/
def lit_neg1em10 : F64 := ⟨0xbddb7cdfd9d7bdbb, by norm_num⟩

/-- Bits of the literal `1e15`. -/
def lit_1e15 : F64 := ⟨0x430c6bf526340000, by norm_num⟩

/-- Bits of the literal `-1e15`. -/
def lit_neg1e15 : F64 := ⟨0xc30c6bf526340000, by norm_num⟩

/-- Bits of the literal `17.12344658922222221111154657`. -/
def lit_divisor : F64 := ⟨0x40311f9a3217831f, by norm_num⟩

/-- Bits of the literal `10.0`. -/
def lit_ten : F64 := ⟨0x4024000000000000, by norm_num⟩

/-- Bits of IEEE-754 `+infinity` (not a source literal; used to state
overflow hypotheses on the abstract operations). -/
def lit_posInf : F64 := ⟨0x7ff0000000000000, by norm_num⟩

/-- Bits of IEEE-754 `-infinity`. -/
def lit_negInf : F64 := ⟨0xfff0000000000000, by norm_num⟩

/-- A bit pattern is a NaN iff its exponent field is all ones and its
mantissa field is nonzero (any payload). -/
def isNaNBits (b : F64) : Prop :=
  b.val / 2 ^ 52 % 2 ^ 11 = 2047 ∧ b.val % 2 ^ 52 ≠ 0

instance (b : F64) : Decidable (isNaNBits b) := by
  unfold isNaNBits; infer_instance

/-- The array `starting_values` of `enhanced_denormal_test`
(main.rs lines 127-134). -/
def starting_values : List F64 :=
  [lit_1em308, lit_2em308, lit_5em308, lit_1em307, lit_1em320, lit_minNormal]

/-- Body of one iteration of the inner loop of `enhanced_denormal_test`
after the `x`/`y` updates (main.rs lines 144-150): the `combined`
trigonometric weighting and the perturbed `final_val` that is pushed. -/
def denormalBody (fp : FloatOps) (x y : F64) (i : Nat) : F64 :=
  let combined :=
    fp.add (fp.mul x (fp.add lit_one (fp.sin (fp.mul (fp.ofNat i) lit_0_01))))
      (fp.mul y (fp.add lit_one (fp.cos (fp.mul (fp.ofNat i) lit_0_01))))
  fp.add
    (fp.add combined (fp.mul (fp.sin (fp.mul combined lit_1e300)) lit_1em308))
    (fp.mul (fp.atan (fp.mul combined lit_1e200)) lit_1em308)

/-- The inner loop of `enhanced_denormal_test` (main.rs lines 140-151):
`n` remaining iterations, current `x` and `y`, current loop index `i`;
each iteration first updates `x` and `y`, then pushes the combined value. -/
def denormalLoop (fp : FloatOps) : Nat → F64 → F64 → Nat → List F64
  | 0, _, _, _ => []
  | n + 1, x, y, i =>
    let x2 := fp.add (fp.div x lit_1_1123156) (fp.mul x lit_0_9123545676)
    let y2 := fp.add (fp.mul y lit_0_951235467) (fp.div y lit_1_05123245)
    denormalBody fp x2 y2 i :: denormalLoop fp n x2 y2 (i + 1)

/-- `enhanced_denormal_test` (main.rs lines 124-155): for each starting
value, `x = start`, `y = start * 1.112345`, then
`SAMPLE_SIZE / starting_values.len()` inner iterations. -/
def enhanced_denormal_test (fp : FloatOps) : List F64 :=
  starting_values.flatMap fun start =>
    denormalLoop fp (SAMPLE_SIZE / starting_values.length) start
      (fp.mul start lit_1_112345) 0

/-- The `test_values` table of `transcendental_function_test`
(main.rs lines 161-185): 17 hard-coded values followed by the 500 points
`i as f64 * PI / 17.12344658922222221111154657`. -/
def test_values (fp : FloatOps) : List F64 :=
  [lit_zero, lit_1em15,
    fp.div lit_pi lit_six, fp.div lit_pi lit_four, fp.div lit_pi lit_three,
    fp.div lit_pi lit_two, lit_pi, fp.div (fp.mul lit_three lit_pi) lit_two,
    fp.mul lit_two lit_pi, lit_one, lit_negOne, lit_half, lit_negFrac,
    lit_1em10, lit_neg1em10, lit_1e15, lit_neg1e15]
  ++ (List.range 500).map fun i => fp.div (fp.mul (fp.ofNat i) lit_pi) lit_divisor

/-- The nine values pushed for one input of `transcendental_function_test`
(main.rs lines 187-211), in push order. -/
def nineOutputs (fp : FloatOps) (val : F64) : List F64 :=
  let sin_val := fp.sin val
  let cos_val := fp.cos val
  let sin_of_sin := fp.sin (fp.mul sin_val lit_ten)
  let exp_of_cos := fp.sub (fp.exp cos_val) lit_one
  let compound1 :=
    fp.sub (fp.mul (fp.sinh val) (fp.cosh val))
      (fp.mul lit_half (fp.sinh (fp.mul lit_two val)))
  let compound2 :=
    fp.add (fp.log10 (fp.add (fp.abs val) lit_one))
      (fp.log2 (fp.add (fp.abs val) lit_two))
  let atan_val := fp.atan val
  let tanh_val := fp.tanh val
  let hypot_val := fp.hypot sin_val cos_val
  [sin_val, cos_val, sin_of_sin, exp_of_cos, compound1, compound2,
    atan_val, tanh_val, fp.sub hypot_val lit_one]

/-- `transcendental_function_test` (main.rs lines 159-214): the nine
outputs for each table input, in table order. -/
def transcendental_function_test (fp : FloatOps) : List F64 :=
  (test_values fp).flatMap (nineOutputs fp)

/-- One lowercase hexadecimal digit character (0-9 then a-f). -/
def hexChar (n : Nat) : Char :=
  if n < 10 then Char.ofNat (48 + n) else Char.ofNat (87 + n)

/-- The `{:016x}` rendering of a 64-bit value: 16 lowercase hex digits,
most significant first, zero-padded. -/
def toHex16 (n : Nat) : String :=
  String.mk ((List.range 16).map fun k => hexChar (n / 16 ^ (15 - k) % 16))

/-- `calculate_fingerprint_full_precision` (main.rs lines 216-225):
feed each element's `to_bits` into the 64-bit hasher in vector order,
finish, and render as 16 lowercase hex digits.  `h64` abstracts the
`DefaultHasher` new/write/finish pipeline as a function of the written
word sequence. -/
def calculate_fingerprint_full_precision (h64 : List Nat → Fin (2 ^ 64))
    (results : List F64) : String :=
  toHex16 (h64 (results.map toBits)).val

/-- The test dispatch of `main` (main.rs lines 56-60): the two registered
names run their generator; any other name hits the `panic!` arm, embedded
as `none`. -/
def runTest (fp : FloatOps) (name : String) : Option (List F64) :=
  if name = "Enhanced Denormal Numbers Test" then some (enhanced_denormal_test fp)
  else if name = "Transcendental Function Test" then some (transcendental_function_test fp)
  else none

/-- The fingerprint tally of the verifier loop (main.rs line 68):
`*fingerprints.entry(fingerprint).or_insert(0) += 1` per run, starting
from the empty map (count 0 everywhere). -/
def buildTally (runs : List String) : String → Nat :=
  runs.foldl (fun m f => Function.update m f (m f + 1)) fun _ => 0

/-- The status a tally entry is reported with (main.rs lines 93-97). -/
def consistency_status (count : Nat) : String :=
  if count = CONSISTENCY_RUNS then "CONSISTENT" else "INCONSISTENT"

/-- The percentage a tally entry is reported with (main.rs line 91),
with the f64 arithmetic of the reporting layer carried out exactly in ℚ. -/
def consistency_percentage (count : Nat) : ℚ :=
  (count : ℚ) / (CONSISTENCY_RUNS : ℚ) * 100

/-- As described by claim C7: the `x` recurrence, `x` initialized to the
seed and updated by `x = x / 1.1123156 + x * 0.9123545676` each iteration. -/
def claimX (fp : FloatOps) (s : F64) : Nat → F64
  | 0 => s
  | k + 1 =>
    fp.add (fp.div (claimX fp s k) lit_1_1123156)
      (fp.mul (claimX fp s k) lit_0_9123545676)

/-- As described by claim C7: the `y` recurrence, `y` initialized to
`seed * 1.112345` and updated by `y = y * 0.951235467 + y / 1.05123245`. -/
def claimY (fp : FloatOps) (s : F64) : Nat → F64
  | 0 => fp.mul s lit_1_112345
  | k + 1 =>
    fp.add (fp.mul (claimY fp s k) lit_0_951235467)
      (fp.div (claimY fp s k) lit_1_05123245)

/-- As described by claim C7: `combined = x (1 + sin(i 0.01)) + y (1 + cos(i 0.01))`
with `x`, `y` the recurrence values after the update of iteration `i`. -/
def claimCombined (fp : FloatOps) (s : F64) (i : Nat) : F64 :=
  fp.add
    (fp.mul (claimX fp s (i + 1))
      (fp.add lit_one (fp.sin (fp.mul (fp.ofNat i) lit_0_01))))
    (fp.mul (claimY fp s (i + 1))
      (fp.add lit_one (fp.cos (fp.mul (fp.ofNat i) lit_0_01))))

/-- As described by claim C7: the appended value
`combined + sin(combined 1e300) 1e-308 + atan(combined 1e200) 1e-308`. -/
def claimFinalVal (fp : FloatOps) (s : F64) (i : Nat) : F64 :=
  fp.add
    (fp.add (claimCombined fp s i)
      (fp.mul (fp.sin (fp.mul (claimCombined fp s i) lit_1e300)) lit_1em308))
    (fp.mul (fp.atan (fp.mul (claimCombined fp s i) lit_1e200)) lit_1em308)

/-- As described by claim C7: the whole denormal output, seed index outer,
iteration index `0..204` inner. -/
def claimDenormalOutput (fp : FloatOps) : List F64 :=
  starting_values.flatMap fun s => (List.range 205).map (claimFinalVal fp s)

/-- The nine per-input values in the order claim C6 states them, with the
third being `sin(sin(x))` as the claim reads.  (The source computes
`sin(sin(x) * 10.0)` there instead.) -/
def spec_nine_as_claimed (fp : FloatOps) (x : F64) : List F64 :=
  [fp.sin x, fp.cos x, fp.sin (fp.sin x), fp.sub (fp.exp (fp.cos x)) lit_one,
    fp.sub (fp.mul (fp.sinh x) (fp.cosh x))
      (fp.mul lit_half (fp.sinh (fp.mul lit_two x))),
    fp.add (fp.log10 (fp.add (fp.abs x) lit_one))
      (fp.log2 (fp.add (fp.abs x) lit_two)),
    fp.atan x, fp.tanh x, fp.sub (fp.hypot (fp.sin x) (fp.cos x)) lit_one]

/-- Claim C6 as amended: identical to the claim except that the third
element is `sin(sin(x) * 10.0)`, as the source computes. -/
def spec_nine_amended (fp : FloatOps) (x : F64) : List F64 :=
  [fp.sin x, fp.cos x, fp.sin (fp.mul (fp.sin x) lit_ten),
    fp.sub (fp.exp (fp.cos x)) lit_one,
    fp.sub (fp.mul (fp.sinh x) (fp.cosh x))
      (fp.mul lit_half (fp.sinh (fp.mul lit_two x))),
    fp.add (fp.log10 (fp.add (fp.abs x) lit_one))
      (fp.log2 (fp.add (fp.abs x) lit_two)),
    fp.atan x, fp.tanh x, fp.sub (fp.hypot (fp.sin x) (fp.cos x)) lit_one]

/-- A concrete `FloatOps` instance (arbitrary computable word functions)
used to instantiate witnesses and counterexamples.  It is not meant to
model IEEE semantics. -/
def testOps : FloatOps where
  add := fun a b => a + b
  sub := fun a b => a - b
  mul := fun a b => a * b
  div := fun a b => a + b + 1
  sin := fun a => a + 1
  cos := fun a => a + 2
  exp := fun a => a + 3
  sinh := fun a => a + 4
  cosh := fun a => a + 5
  log10 := fun a => a + 6
  log2 := fun a => a + 7
  atan := fun a => a + 8
  tanh := fun a => a + 9
  hypot := fun a b => a + b + 2
  abs := fun a => a + 10
  ofNat := fun n => (n : F64)

/-- Bits of a quiet NaN (all-ones exponent, mantissa high bit set). -/
def lit_qnan : F64 := ⟨0x7ff8000000000000, by norm_num⟩

/-- A concrete `FloatOps` instance realizing the IEEE overflow facts that
claim C10 relies on: `sinh`/`cosh` overflow to infinities at `±1e15`,
products involving infinities stay infinite, and `∞ - ∞` is a NaN. -/
def ovOps : FloatOps where
  add := fun a b => a + b
  sub := fun a b =>
    if a = lit_posInf ∧ b = lit_posInf then lit_qnan
    else if a = lit_negInf ∧ b = lit_negInf then lit_qnan
    else a - b
  mul := fun a b =>
    if a = lit_two then b
    else if b = lit_posInf then (if a = lit_negInf then lit_negInf else lit_posInf)
    else if b = lit_negInf then lit_negInf
    else a * b
  div := fun a b => a + b + 1
  sin := fun a => a
  cos := fun a => a
  exp := fun a => a
  sinh := fun a =>
    if a = lit_1e15 then lit_posInf
    else if a = lit_neg1e15 then lit_negInf
    else a
  cosh := fun _ => lit_posInf
  log10 := fun a => a
  log2 := fun a => a
  atan := fun a => a
  tanh := fun a => a
  hypot := fun a b => a + b
  abs := fun a => a
  ofNat := fun n => (n : F64)

/-- A trivial concrete hasher model used to instantiate witnesses. -/
def zeroHash : List Nat → Fin (2 ^ 64) := fun _ => 0

/-- The inner loop produces exactly one element per iteration. -/
lemma denormalLoop_length (fp : FloatOps) :
    ∀ (n : Nat) (x y : F64) (i : Nat), (denormalLoop fp n x y i).length = n := by
  intro n
  induction n with
  | zero => intro x y i; rfl
  | succ n ih =>
    intro x y i
    simp only [denormalLoop, List.length_cons, ih]

/-- The inner loop, started at the recurrence values after `j` updates,
lists the claim-side per-iteration values `j, j+1, …`. -/
lemma denormalLoop_eq_claim (fp : FloatOps) (s : F64) :
    ∀ (n j : Nat),
      denormalLoop fp n (claimX fp s j) (claimY fp s j) j =
        (List.range n).map fun k => claimFinalVal fp s (j + k) := by
  intro n
  induction n with
  | zero => intro j; rfl
  | succ n ih =>
    intro j
    have step :
        denormalLoop fp (n + 1) (claimX fp s j) (claimY fp s j) j =
          claimFinalVal fp s j ::
            denormalLoop fp n (claimX fp s (j + 1)) (claimY fp s (j + 1)) (j + 1) := rfl
    rw [step, ih (j + 1), List.range_succ_eq_map, List.map_cons, List.map_map]
    congr 1
    apply List.map_congr_left
    intro k _
    simp only [Function.comp_apply]
    have e : j + 1 + k = j + (k + 1) := by omega
    rw [e]

/-- Indexing into a flatMap whose chunks all have length 9. -/
lemma getElem?_flatMap_nine {α : Type} (f : α → List F64)
    (hf : ∀ a, (f a).length = 9) :
    ∀ (l : List α) (k r : Nat), r < 9 → ∀ a, l[k]? = some a →
      (l.flatMap f)[9 * k + r]? = (f a)[r]? := by
  intro l
  induction l with
  | nil => intro k r _ a ha; simp at ha
  | cons x xs ih =>
    intro k r hr a ha
    cases k with
    | zero =>
      obtain rfl : x = a := by simpa using ha
      rw [List.flatMap_cons, List.getElem?_append, if_pos (by rw [hf x]; omega)]
      congr 1
      omega
    | succ k =>
      rw [List.flatMap_cons, List.getElem?_append, if_neg (by rw [hf x]; omega)]
      rw [hf x]
      have e : 9 * (k + 1) + r - 9 = 9 * k + r := by omega
      rw [e]
      exact ih k r hr a (by simpa using ha)

/-- The tally of the verifier loop counts occurrences. -/
lemma buildTally_count (runs : List String) (s : String) :
    buildTally runs s = runs.count s := by
  have aux : ∀ (l : List String) (m : String → Nat) (t : String),
      l.foldl (fun m f => Function.update m f (m f + 1)) m t = m t + l.count t := by
    intro l
    induction l with
    | nil => intro m t; simp
    | cons f rest ih =>
      intro m t
      rw [List.foldl_cons, ih, List.count_cons]
      by_cases h : t = f
      · subst h
        rw [Function.update_same]
        simp only [beq_self_eq_true, if_true]
        omega
      · rw [Function.update_noteq h]
        simp only [beq_iff_eq]
        rw [if_neg (Ne.symm h)]
        omega
  exact (aux runs (fun _ => 0) s).trans (by simp)

/-- Deduplicating a nonempty constant list yields a singleton. -/
lemma dedup_replicate_one {α : Type} [DecidableEq α] (n : Nat) (a : α) :
    (List.replicate (n + 1) a).dedup = [a] := by
  induction n with
  | zero => simp
  | succ n ih =>
    rw [List.replicate_succ, List.dedup_cons_of_mem (by simp [List.mem_replicate]), ih]

/-- An occurring string accounts for all runs iff only one distinct string
occurs at all. -/
lemma count_len_iff_dedup_one (runs : List String) (s : String)
    (hmem : s ∈ runs) :
    runs.count s = runs.length ↔ runs.dedup.length = 1 := by
  constructor
  · intro h
    have hall : ∀ b ∈ runs, s = b := List.count_eq_length.1 h
    have hrep : runs = List.replicate runs.length s :=
      List.eq_replicate_iff.2 ⟨rfl, fun b hb => (hall b hb).symm⟩
    obtain ⟨n, hn⟩ : ∃ n, runs.length = n + 1 := by
      have := List.length_pos_of_mem hmem
      exact ⟨runs.length - 1, by omega⟩
    rw [hrep, hn, dedup_replicate_one]
    rfl
  · intro h
    obtain ⟨a, ha⟩ := List.length_eq_one.1 h
    have honly : ∀ x ∈ runs, x = a := by
      intro x hx
      have hxd : x ∈ runs.dedup := List.mem_dedup.2 hx
      rw [ha] at hxd
      simpa using hxd
    apply List.count_eq_length.2
    intro b hb
    rw [honly s hmem, honly b hb]

/-- Summing chunk lengths when every chunk has length 9. -/
lemma sum_map_length_nine {α : Type} (f : α → List F64)
    (hf : ∀ a, (f a).length = 9) :
    ∀ l : List α, (l.map (List.length ∘ f)).sum = 9 * l.length := by
  intro l
  induction l with
  | nil => simp
  | cons x xs ih =>
    simp only [List.map_cons, List.sum_cons, ih, Function.comp_apply, hf,
      List.length_cons]
    ring

/-- Claim C1: for each registered generator, invoking it twice yields
bit-identical ResultVectors — every element has the same IEEE-754 bit
pattern at the same index — and consequently
`calculate_fingerprint_full_precision` returns equal strings for the two
outputs. -/
theorem C1_generator_determinism (fp : FloatOps) (h64 : List Nat → Fin (2 ^ 64))
    (name : String) (r1 r2 : List F64)
    (h1 : runTest fp name = some r1) (h2 : runTest fp name = some r2) :
    r1.length = r2.length
    ∧ (∀ (i : Nat) (hi1 : i < r1.length) (hi2 : i < r2.length),
        toBits (r1.get ⟨i, hi1⟩) = toBits (r2.get ⟨i, hi2⟩))
    ∧ calculate_fingerprint_full_precision h64 r1 =
        calculate_fingerprint_full_precision h64 r2 := by
  have hr : r1 = r2 := Option.some.inj (h1.symm.trans h2)
  subst hr
  exact ⟨rfl, fun _ _ _ => rfl, rfl⟩

/-- Witness for C1 at a concrete model and the denormal test name. -/
theorem C1_generator_determinism_witness :
    runTest testOps "Enhanced Denormal Numbers Test" =
      some (enhanced_denormal_test testOps)
    ∧ calculate_fingerprint_full_precision zeroHash (enhanced_denormal_test testOps) =
        calculate_fingerprint_full_precision zeroHash (enhanced_denormal_test testOps) :=
  ⟨rfl,
    (C1_generator_determinism testOps zeroHash "Enhanced Denormal Numbers Test"
      (enhanced_denormal_test testOps) (enhanced_denormal_test testOps) rfl rfl).2.2⟩

/-- Claim C2: the fingerprint is a function of the element-wise bit
patterns only — equal-length vectors with equal `to_bits` at every index
hash to the same string — and `+0.0`/`-0.0` have different bit patterns,
so vectors differing only there are not identified by that equality. -/
theorem C2_fingerprint_function_of_bits (h64 : List Nat → Fin (2 ^ 64))
    (v w : List F64) (hlen : v.length = w.length)
    (hbits : ∀ (i : Nat) (hi1 : i < v.length) (hi2 : i < w.length),
      toBits (v.get ⟨i, hi1⟩) = toBits (w.get ⟨i, hi2⟩)) :
    calculate_fingerprint_full_precision h64 v =
      calculate_fingerprint_full_precision h64 w
    ∧ toBits lit_zero ≠ toBits lit_negZero := by
  have hvw : v = w :=
    List.ext_get hlen fun i hi1 hi2 => Fin.val_injective (hbits i hi1 hi2)
  subst hvw
  exact ⟨rfl, by decide⟩

/-- Witness for C2 at a concrete hasher and vector. -/
theorem C2_fingerprint_function_of_bits_witness :
    ([lit_zero].length = [lit_zero].length)
    ∧ calculate_fingerprint_full_precision zeroHash [lit_zero] =
        calculate_fingerprint_full_precision zeroHash [lit_zero]
    ∧ toBits lit_zero ≠ toBits lit_negZero :=
  ⟨rfl, C2_fingerprint_function_of_bits zeroHash [lit_zero] [lit_zero] rfl
    (fun _ _ _ => rfl)⟩

/-- Claim C3: a tally entry of a run of N = `CONSISTENCY_RUNS` runs is
reported "CONSISTENT" iff its count equals N, which holds iff exactly one
distinct fingerprint occurred; otherwise it is reported "INCONSISTENT";
the reported percentage is count / N × 100. -/
theorem C3_consistency_classification (runs : List String) (s : String)
    (hN : runs.length = CONSISTENCY_RUNS) (hmem : s ∈ runs) :
    (consistency_status (buildTally runs s) = "CONSISTENT" ↔
        buildTally runs s = CONSISTENCY_RUNS)
    ∧ (buildTally runs s = CONSISTENCY_RUNS ↔ runs.dedup.length = 1)
    ∧ (buildTally runs s ≠ CONSISTENCY_RUNS →
        consistency_status (buildTally runs s) = "INCONSISTENT")
    ∧ consistency_percentage (buildTally runs s) =
        (buildTally runs s : ℚ) / (CONSISTENCY_RUNS : ℚ) * 100 := by
  refine ⟨?_, ?_, ?_, rfl⟩
  · unfold consistency_status
    by_cases h : buildTally runs s = CONSISTENCY_RUNS
    · rw [if_pos h]
      exact ⟨fun _ => h, fun _ => rfl⟩
    · rw [if_neg h]
      exact ⟨fun hh => absurd hh (by decide), fun hh => absurd hh h⟩
  · rw [buildTally_count, ← hN]
    exact count_len_iff_dedup_one runs s hmem
  · intro h
    unfold consistency_status
    rw [if_neg h]

/-- Witness for C3 at a concrete three-run tally. -/
theorem C3_consistency_classification_witness :
    (["a", "a", "a"].length = CONSISTENCY_RUNS)
    ∧ (buildTally ["a", "a", "a"] "a" = CONSISTENCY_RUNS ↔
        (["a", "a", "a"] : List String).dedup.length = 1) :=
  ⟨rfl, (C3_consistency_classification ["a", "a", "a"] "a" rfl
    (by simp)).2.1⟩

/-- Claim C4: after N = `CONSISTENCY_RUNS` runs, the tally counts sum to
N over the distinct fingerprints, every occurring fingerprint has count at
least 1, and each run increments exactly its own fingerprint's count by 1
(absent keys starting from 0). -/
theorem C4_tally_invariant (runs : List String)
    (hN : runs.length = CONSISTENCY_RUNS) :
    ((runs.dedup.map (buildTally runs)).sum = CONSISTENCY_RUNS)
    ∧ (∀ s ∈ runs.dedup, 1 ≤ buildTally runs s)
    ∧ (∀ (f s : String), buildTally (runs ++ [f]) s =
        buildTally runs s + if s = f then 1 else 0) := by
  refine ⟨?_, ?_, ?_⟩
  · rw [show buildTally runs = fun x => List.count x runs from
      funext fun x => buildTally_count runs x]
    rw [List.sum_map_count_dedup_eq_length, hN]
  · intro s hs
    rw [buildTally_count]
    have := List.count_pos_iff.2 (List.mem_dedup.1 hs)
    omega
  · intro f s
    rw [buildTally_count, buildTally_count, List.count_append]
    have e : List.count s [f] = if s = f then 1 else 0 := by
      by_cases h : s = f
      · subst h; simp
      · simp [h, List.count_cons]
    rw [e]

/-- Witness for C4 at a concrete three-run tally with two keys. -/
theorem C4_tally_invariant_witness :
    (["a", "a", "b"].length = CONSISTENCY_RUNS)
    ∧ ((["a", "a", "b"] : List String).dedup.map
        (buildTally ["a", "a", "b"])).sum = CONSISTENCY_RUNS :=
  ⟨rfl, (C4_tally_invariant ["a", "a", "b"] rfl).1⟩

/-- Claim C5: `enhanced_denormal_test` always returns exactly
`SAMPLE_SIZE` = 1230 elements and `transcendental_function_test` exactly
517 × 9 = 4653 elements, on every invocation (any `FloatOps`). -/
theorem C5_output_lengths (fp : FloatOps) :
    (enhanced_denormal_test fp).length = 1230
    ∧ SAMPLE_SIZE = 1230
    ∧ (transcendental_function_test fp).length = 4653
    ∧ 517 * 9 = 4653 := by
  refine ⟨?_, rfl, ?_, rfl⟩
  · unfold enhanced_denormal_test
    rw [List.length_flatMap]
    simp only [starting_values, List.map_cons, List.map_nil,
      Function.comp_apply, denormalLoop_length, List.sum_cons, List.sum_nil]
    rfl
  · unfold transcendental_function_test
    rw [List.length_flatMap, sum_map_length_nine (nineOutputs fp) (fun a => rfl)]
    have hlen : (test_values fp).length = 517 := by simp [test_values]
    rw [hlen]

/-- Claim C6 as stated is false: the third of the nine per-input values is
not `sin(sin(x))`; at a concrete operation model the produced third
element differs from the claimed one. -/
theorem C6_nine_outputs_counterexample :
    ¬ transcendental_function_test testOps =
        (test_values testOps).flatMap (spec_nine_as_claimed testOps) := by
  intro h
  have h2 := congrArg (fun l => l.getD 2 lit_zero) h
  exact absurd h2 (by decide)

/-- Claim C6 as amended: for every input value in the fixed table the nine
appended elements are, in this exact order: sin(x), cos(x),
sin(sin(x) · 10.0), exp(cos(x)) − 1, sinh(x)·cosh(x) − 0.5·sinh(2x),
log10(|x|+1) + log2(|x|+2), atan(x), tanh(x), hypot(sin x, cos x) − 1. -/
theorem C6_nine_outputs_amended (fp : FloatOps) :
    transcendental_function_test fp =
      (test_values fp).flatMap (spec_nine_amended fp) := rfl

/-- Claim C7: the denormal generator's output is exactly the claim's
seed-outer/iteration-inner enumeration of the described `x`/`y`
recurrences, trig-weighted combination and perturbed final value. -/
theorem C7_denormal_recurrence (fp : FloatOps) :
    enhanced_denormal_test fp = claimDenormalOutput fp := by
  have hfg : ∀ s : F64,
      denormalLoop fp (SAMPLE_SIZE / starting_values.length) s
          (fp.mul s lit_1_112345) 0 =
        (List.range 205).map (claimFinalVal fp s) := by
    intro s
    have h2 : (List.range 205).map (fun k => claimFinalVal fp s (0 + k)) =
        (List.range 205).map (claimFinalVal fp s) :=
      List.map_congr_left fun k _ => by rw [Nat.zero_add]
    exact (denormalLoop_eq_claim fp s 205 0).trans h2
  unfold enhanced_denormal_test claimDenormalOutput
  exact congrArg (fun g => starting_values.flatMap g) (funext hfg)

/-- Claim C8: the fingerprint function is total and always returns a
string of exactly 16 characters, each a lowercase hexadecimal digit. -/
theorem C8_fingerprint_sixteen_hex (h64 : List Nat → Fin (2 ^ 64))
    (v : List F64) :
    (calculate_fingerprint_full_precision h64 v).length = 16
    ∧ ∀ c ∈ (calculate_fingerprint_full_precision h64 v).toList,
        c ∈ "0123456789abcdef".toList := by
  constructor
  · rfl
  · intro c hc
    have hc2 : c ∈ (List.range 16).map
        fun k => hexChar ((h64 (v.map toBits)).val / 16 ^ (15 - k) % 16) := hc
    obtain ⟨k, hk, rfl⟩ := List.mem_map.1 hc2
    have hlt : (h64 (v.map toBits)).val / 16 ^ (15 - k) % 16 < 16 :=
      Nat.mod_lt _ (by norm_num)
    have hall : ∀ m, m < 16 → hexChar m ∈ "0123456789abcdef".toList := by decide
    exact hall _ hlt

/-- Claim C9: dispatching any name other than the two registered ones hits
the `panic!` arm (embedded as `none`) instead of returning a ResultVector. -/
theorem C9_unknown_name_aborts (fp : FloatOps) (name : String)
    (h1 : name ≠ "Enhanced Denormal Numbers Test")
    (h2 : name ≠ "Transcendental Function Test") :
    runTest fp name = none := by
  unfold runTest
  rw [if_neg h1, if_neg h2]

/-- Witness for C9 at a concrete unregistered name. -/
theorem C9_unknown_name_aborts_witness :
    ("Some Other Test" ≠ "Enhanced Denormal Numbers Test")
    ∧ runTest testOps "Some Other Test" = none :=
  ⟨by decide, C9_unknown_name_aborts testOps "Some Other Test" (by decide) (by decide)⟩

/-- Claim C10: under the IEEE overflow behavior of `sinh`/`cosh` at
`±1e15` (overflow to infinities, `∞·∞ = ∞`, `∞ − ∞ = NaN`), the
transcendental output holds a NaN bit pattern at indices 139 and 148 (the
`compound1` slot of table inputs 15 and 16), and the fingerprint hashes
those elements by their bit patterns like any other element. -/
theorem C10_nan_elements (fp : FloatOps) (h64 : List Nat → Fin (2 ^ 64))
    (hs1 : fp.sinh lit_1e15 = lit_posInf)
    (hc1 : fp.cosh lit_1e15 = lit_posInf)
    (hm1 : fp.mul lit_posInf lit_posInf = lit_posInf)
    (hs2 : fp.sinh (fp.mul lit_two lit_1e15) = lit_posInf)
    (hm2 : fp.mul lit_half lit_posInf = lit_posInf)
    (hn1 : isNaNBits (fp.sub lit_posInf lit_posInf))
    (hs3 : fp.sinh lit_neg1e15 = lit_negInf)
    (hc2 : fp.cosh lit_neg1e15 = lit_posInf)
    (hm3 : fp.mul lit_negInf lit_posInf = lit_negInf)
    (hs4 : fp.sinh (fp.mul lit_two lit_neg1e15) = lit_negInf)
    (hm4 : fp.mul lit_half lit_negInf = lit_negInf)
    (hn2 : isNaNBits (fp.sub lit_negInf lit_negInf)) :
    ((transcendental_function_test fp)[139]? = some (fp.sub lit_posInf lit_posInf)
      ∧ isNaNBits (fp.sub lit_posInf lit_posInf))
    ∧ ((transcendental_function_test fp)[148]? = some (fp.sub lit_negInf lit_negInf)
      ∧ isNaNBits (fp.sub lit_negInf lit_negInf))
    ∧ calculate_fingerprint_full_precision h64 (transcendental_function_test fp) =
        toHex16 (h64 ((transcendental_function_test fp).map toBits)).val
    ∧ ((transcendental_function_test fp).map toBits)[139]? =
        some (toBits (fp.sub lit_posInf lit_posInf)) := by
  have key1 : (transcendental_function_test fp)[139]? =
      some (fp.sub lit_posInf lit_posInf) := by
    have h := getElem?_flatMap_nine (nineOutputs fp) (fun a => rfl)
      (test_values fp) 15 4 (by omega) lit_1e15 rfl
    have e : (9 : Nat) * 15 + 4 = 139 := by norm_num
    rw [e] at h
    show ((test_values fp).flatMap (nineOutputs fp))[139]? = _
    rw [h]
    show some (fp.sub (fp.mul (fp.sinh lit_1e15) (fp.cosh lit_1e15))
      (fp.mul lit_half (fp.sinh (fp.mul lit_two lit_1e15)))) = _
    rw [hs1, hc1, hm1, hs2, hm2]
  have key2 : (transcendental_function_test fp)[148]? =
      some (fp.sub lit_negInf lit_negInf) := by
    have h := getElem?_flatMap_nine (nineOutputs fp) (fun a => rfl)
      (test_values fp) 16 4 (by omega) lit_neg1e15 rfl
    have e : (9 : Nat) * 16 + 4 = 148 := by norm_num
    rw [e] at h
    show ((test_values fp).flatMap (nineOutputs fp))[148]? = _
    rw [h]
    show some (fp.sub (fp.mul (fp.sinh lit_neg1e15) (fp.cosh lit_neg1e15))
      (fp.mul lit_half (fp.sinh (fp.mul lit_two lit_neg1e15)))) = _
    rw [hs3, hc2, hm3, hs4, hm4]
  refine ⟨⟨key1, hn1⟩, ⟨key2, hn2⟩, rfl, ?_⟩
  rw [List.getElem?_map, key1]
  rfl

/-- Witness for C10 at a concrete model realizing the overflow facts. -/
theorem C10_nan_elements_witness :
    ovOps.sinh lit_1e15 = lit_posInf
    ∧ ((transcendental_function_test ovOps)[139]? =
        some (ovOps.sub lit_posInf lit_posInf)
      ∧ isNaNBits (ovOps.sub lit_posInf lit_posInf)) :=
  ⟨by decide,
    (C10_nan_elements ovOps zeroHash (by decide) (by decide) (by decide)
      (by decide) (by decide) (by decide) (by decide) (by decide) (by decide)
      (by decide) (by decide) (by decide)).1⟩

end CpuFingerprint
